import Mathlib

/-!
Shallow embedding of the panel-construction and difference-in-differences
pipelines of the HASE-25 repository.

Two pipelines are modelled:

* `src/analysis/analysis-all-data.py` (the "count" pipeline): commit events
  are aggregated per (date, country, username), a complete user-day grid is
  formed as the cross product of the distinct (username, country) pairs with
  the distinct (date, day_of_week) pairs, actual counts are left-merged onto
  the grid with missing counts filled with 0, a `did_commit` indicator is
  added, and the frame is filtered to the pre-period plus a post window.

* `src/scripts/simple_did_analysis.py` (the "line-level" pipeline):
  enriched commits are coerced (`pd.to_numeric(errors="coerce")`), rows with
  missing API metrics are dropped, optionally dates are truncated at
  2023-04-08, line metrics are summed per (username, country, date), DiD
  indicator columns and log1p outcomes are added.

Dates are modelled as `Int` day numbers (days since 1970-01-01, computed by
`civilToDay` below).  A pandas timestamp carries a time of day, but the
pipelines use it only through `.dt.date` and `.dt.day_name()`, both functions
of the day alone, so an event's timestamp is embedded as its day number.
Machine floats are modelled exactly: every numeric reaching an aggregation is
an integer (commit counts, line counts) and the sums involved are far below
2^53, so float arithmetic in the source is exact and `Int`/`Nat` model it
faithfully; the `log1p` outcomes are modelled over `ℝ`.
-/

/-- Day number (days since 1970-01-01) of a proleptic-Gregorian civil date,
via the standard days-from-civil algorithm; used to embed concrete dates such
as 2023-04-01 appearing in the analysis parameters. -/
def civilToDay (y m d : Int) : Int :=
  let y' := if m ≤ 2 then y - 1 else y
  let era := (if 0 ≤ y' then y' else y' - 399) / 400
  let yoe := y' - era * 400
  let mp := (m + 9) % 12
  let doy := (153 * mp + 2) / 5 + d - 1
  let doe := yoe * 365 + yoe / 4 - yoe / 100 + doy
  era * 146097 + doe - 719468

/-- Day-of-week code of a day number (1970-01-01 was a Thursday; codes are
0 = Sunday .. 6 = Saturday).  This embeds `.dt.day_name()`, which the
pipelines use only as a categorical column: all that matters is that it is a
deterministic function of the date. -/
def dayOfWeek (d : Int) : Int :=
  (d + 4) % 7

/-- Worker for keep-first duplicate removal: `seen` holds the values already
emitted. -/
def dropDupAux {α : Type} [DecidableEq α] (seen : List α) : List α → List α
  | [] => []
  | a :: as =>
    if a ∈ seen then dropDupAux seen as else a :: dropDupAux (a :: seen) as

/-- Keep-first duplicate removal, the semantics of pandas
`drop_duplicates()` / distinct group keys. -/
def dropDup {α : Type} [DecidableEq α] (l : List α) : List α :=
  dropDupAux [] l

theorem mem_dropDupAux {α : Type} [DecidableEq α] (l : List α) :
    ∀ (seen : List α) (a : α), a ∈ dropDupAux seen l ↔ a ∈ l ∧ a ∉ seen := by
  induction l with
  | nil => intro seen a; simp [dropDupAux]
  | cons b l ih =>
    intro seen a
    by_cases hb : b ∈ seen
    · rw [dropDupAux, if_pos hb, ih]
      constructor
      · rintro ⟨h1, h2⟩; exact ⟨List.mem_cons_of_mem _ h1, h2⟩
      · rintro ⟨h1, h2⟩
        rcases List.mem_cons.mp h1 with h1 | h1
        · exact absurd (h1 ▸ hb) h2
        · exact ⟨h1, h2⟩
    · rw [dropDupAux, if_neg hb]
      by_cases hab : a = b
      · subst hab; simp [hb]
      · simp [List.mem_cons, hab, ih]

theorem mem_dropDup {α : Type} [DecidableEq α] (l : List α) (a : α) :
    a ∈ dropDup l ↔ a ∈ l := by
  rw [dropDup, mem_dropDupAux]
  simp

theorem nodup_dropDupAux {α : Type} [DecidableEq α] (l : List α) :
    ∀ seen : List α, (dropDupAux seen l).Nodup := by
  induction l with
  | nil => intro seen; simp [dropDupAux]
  | cons b l ih =>
    intro seen
    by_cases hb : b ∈ seen
    · rw [dropDupAux, if_pos hb]; exact ih seen
    · rw [dropDupAux, if_neg hb]
      refine List.nodup_cons.mpr ⟨?_, ih (b :: seen)⟩
      intro hmem
      exact ((mem_dropDupAux l (b :: seen) b).mp hmem).2 (List.mem_cons_self b seen)

theorem nodup_dropDup {α : Type} [DecidableEq α] (l : List α) :
    (dropDup l).Nodup :=
  nodup_dropDupAux l []

theorem dropDupAux_eq_self {α : Type} [DecidableEq α] (l : List α)
    (hnd : l.Nodup) :
    ∀ seen : List α, (∀ a ∈ l, a ∉ seen) → dropDupAux seen l = l := by
  induction l with
  | nil => intro seen _; rfl
  | cons b l ih =>
    intro seen hdisj
    have hnd' := List.nodup_cons.mp hnd
    rw [dropDupAux, if_neg (hdisj b (List.mem_cons_self b l))]
    congr 1
    refine ih hnd'.2 (b :: seen) ?_
    intro a ha hs
    rcases List.mem_cons.mp hs with hs | hs
    · exact hnd'.1 (hs ▸ ha)
    · exact hdisj a (List.mem_cons_of_mem _ ha) hs

theorem dropDup_eq_self {α : Type} [DecidableEq α] (l : List α)
    (h : l.Nodup) : dropDup l = l :=
  dropDupAux_eq_self l h [] (by simp)

/-- Two lists without duplicates and with the same members have the same
length (used to identify the code's deduplicated cohort/calendar with the
cohort/calendar named in the specification). -/
theorem length_eq_of_nodup_of_mem_iff {α : Type} (l₁ l₂ : List α)
    (h₁ : l₁.Nodup) (h₂ : l₂.Nodup) (h : ∀ a, a ∈ l₁ ↔ a ∈ l₂) :
    l₁.length = l₂.length := by
  have p₁ : l₁.Subperm l₂ := h₁.subperm (fun a ha => (h a).mp ha)
  have p₂ : l₂.Subperm l₁ := h₂.subperm (fun a ha => (h a).mpr ha)
  exact (p₁.antisymm p₂).length_eq

/-- Cross join of two lists, the semantics of `merge(how='cross')`: for each
left row in order, one output row per right row. -/
def crossJoin {α β : Type} : List α → List β → List (α × β)
  | [], _ => []
  | a :: as, bs => (bs.map fun b => (a, b)) ++ crossJoin as bs

theorem crossJoin_length {α β : Type} (as : List α) (bs : List β) :
    (crossJoin as bs).length = as.length * bs.length := by
  induction as with
  | nil => simp [crossJoin]
  | cons a as ih => simp [crossJoin, ih, Nat.succ_mul, Nat.add_comm]

theorem mem_crossJoin {α β : Type} (as : List α) (bs : List β) (p : α × β) :
    p ∈ crossJoin as bs ↔ p.1 ∈ as ∧ p.2 ∈ bs := by
  induction as with
  | nil => simp [crossJoin]
  | cons a as ih =>
    cases p with
    | mk x y =>
      simp only [crossJoin, List.mem_append, List.mem_map, ih, List.mem_cons]
      constructor
      · rintro (⟨b, hb, heq⟩ | ⟨hx, hy⟩)
        · cases heq; exact ⟨Or.inl rfl, hb⟩
        · exact ⟨Or.inr hx, hy⟩
      · rintro ⟨hx | hx, hy⟩
        · exact Or.inl ⟨y, hy, by rw [hx]⟩
        · exact Or.inr ⟨hx, hy⟩

theorem nodup_crossJoin {α β : Type} (as : List α) (bs : List β)
    (ha : as.Nodup) (hb : bs.Nodup) : (crossJoin as bs).Nodup := by
  induction as with
  | nil => simp [crossJoin]
  | cons a as ih =>
    have hnd := List.nodup_cons.mp ha
    refine List.nodup_append.mpr ⟨?_, ih hnd.2, ?_⟩
    · exact hb.map (fun x y hxy => congrArg Prod.snd hxy)
    · intro p hp hp'
      have h1 : p.1 = a := by
        rcases List.mem_map.mp hp with ⟨b, _, heq⟩
        rw [← heq]
      have h2 : p.1 ∈ as := ((mem_crossJoin as bs p).mp hp').1
      exact hnd.1 (h1 ▸ h2)

/-!
## Pipeline A: `src/analysis/analysis-all-data.py`
-/

/-- A raw commit event as read from the per-country CSVs after the country
column is attached (`all_commits`).  `username` and `event_timestamp` may be
missing (`NaN`/`NaT` in the frame); `country` is assigned as a constant per
input file and is never missing.  The timestamp is embedded as the day number
of its date, the only part the pipeline uses. -/
structure RawEvent where
  username : Option String
  country : String
  event_timestamp : Option Int
deriving DecidableEq, Repr

/-- The (date, country, username) group keys contributed by the events:
pandas `groupby` silently excludes rows whose key contains a missing value,
which is what the `filterMap` models. -/
def validTriples (events : List RawEvent) : List (Int × String × String) :=
  events.filterMap fun e =>
    match e.username, e.event_timestamp with
    | some u, some t => some (t, e.country, u)
    | _, _ => none

/-- A row of `df_counts`: one row per observed (date, country, username,
day_of_week) group with the group's size. -/
structure CountRow where
  username : String
  country : String
  date : Int
  day_of_week : Int
  commit_count : Nat
deriving DecidableEq, Repr

/-- `df_counts = all_commits.groupby(['date','country','username',
'day_of_week']).size()`: one row per distinct key with the number of events
in the group.  `day_of_week` is a function of `date`, so grouping by the
four columns is grouping by the triple. -/
def df_counts (events : List RawEvent) : List CountRow :=
  (dropDup (validTriples events)).map fun k =>
    { username := k.2.2, country := k.2.1, date := k.1,
      day_of_week := dayOfWeek k.1,
      commit_count := (validTriples events).count k }

/-- `unique_users = df_counts[['username','country']].drop_duplicates()`. -/
def unique_users (counts : List CountRow) : List (String × String) :=
  dropDup (counts.map fun r => (r.username, r.country))

/-- `unique_dates = df_counts[['date','day_of_week']].drop_duplicates()`. -/
def unique_dates (counts : List CountRow) : List (Int × Int) :=
  dropDup (counts.map fun r => (r.date, r.day_of_week))

/-- A grid key: a (username, country) pair crossed with a
(date, day_of_week) pair. -/
def GridKey : Type := (String × String) × (Int × Int)

/-- `df_grid = unique_users.merge(unique_dates, how='cross')`. -/
def df_grid (events : List RawEvent) : List GridKey :=
  crossJoin (unique_users (df_counts events)) (unique_dates (df_counts events))

/-- A row of the merged user-day frame before `fillna`: `commit_count` is
`none` exactly when the left join found no matching `df_counts` row (a NaN
in the frame). -/
structure MergedRow where
  username : String
  country : String
  date : Int
  day_of_week : Int
  commit_count : Option Nat
deriving DecidableEq, Repr

/-- Join predicate of the left merge: equality on all four key columns. -/
def matchKey (g : GridKey) (r : CountRow) : Bool :=
  r.username == g.1.1 && r.country == g.1.2 && r.date == g.2.1 &&
    r.day_of_week == g.2.2

/-- `df_grid.merge(df_counts, on=['username','country','date','day_of_week'],
how='left')`: each grid row is paired with every matching `df_counts` row,
or kept once with a missing count when there is no match. -/
def leftMerge (grid : List GridKey) (counts : List CountRow) : List MergedRow :=
  match grid with
  | [] => []
  | g :: gs =>
    (match counts.filter (matchKey g) with
     | [] => [{ username := g.1.1, country := g.1.2, date := g.2.1,
                day_of_week := g.2.2, commit_count := none }]
     | ms => ms.map fun m =>
         { username := g.1.1, country := g.1.2, date := g.2.1,
           day_of_week := g.2.2, commit_count := some m.commit_count }) ++
      leftMerge gs counts

/-- A row of the complete user-day panel `df_user_day` after
`fillna(0)` and the `did_commit` assignment. -/
structure PanelRow where
  username : String
  country : String
  date : Int
  day_of_week : Int
  commit_count : Nat
  did_commit : Int
deriving DecidableEq, Repr

/-- `commit_count = commit_count.fillna(0)` followed by
`did_commit = (commit_count > 0).astype(int)` on one merged row. -/
def finalizeRow (r : MergedRow) : PanelRow :=
  let cc := r.commit_count.getD 0
  { username := r.username, country := r.country, date := r.date,
    day_of_week := r.day_of_week, commit_count := cc,
    did_commit := if 0 < cc then 1 else 0 }

/-- `df_user_day`: the left-merged grid with
`commit_count = commit_count.fillna(0)` and
`did_commit = (commit_count > 0).astype(int)`. -/
def df_user_day (events : List RawEvent) : List PanelRow :=
  (leftMerge
    (crossJoin (unique_users (df_counts events)) (unique_dates (df_counts events)))
    (df_counts events)).map finalizeRow

/-- `start_date = pd.to_datetime(policy_start_date)` and
`end_date = start_date + DateOffset(days=window_length - 1)`, then
`df_analysis = df_user_day[(date < start) | ((date >= start) & (date <= end))]`. -/
def filterWindow (panel : List PanelRow) (start : Int) (window_length : Int) :
    List PanelRow :=
  panel.filter fun r =>
    decide (r.date < start) ||
      (decide (start ≤ r.date) && decide (r.date ≤ start + (window_length - 1)))

/-- A row of `df_analysis` after the `post_policy` and `is_treatment`
dummies are assigned. -/
structure ARow where
  username : String
  country : String
  date : Int
  day_of_week : Int
  commit_count : Nat
  did_commit : Int
  post_policy : Int
  is_treatment : Int
deriving DecidableEq, Repr

/-- `df_analysis['post_policy'] = (date >= start).astype(int)` and
`df_analysis['is_treatment'] = (country == 'Italy').astype(int)`. -/
def df_analysis (panel : List PanelRow) (start : Int) (window_length : Int) :
    List ARow :=
  (filterWindow panel start window_length).map fun r =>
    { username := r.username, country := r.country, date := r.date,
      day_of_week := r.day_of_week, commit_count := r.commit_count,
      did_commit := r.did_commit,
      post_policy := if start ≤ r.date then 1 else 0,
      is_treatment := if r.country = "Italy" then 1 else 0 }

/-- The count-model step (section 5 of the script): the frame handed to
`smf.ols(formula_count, data=df_analysis)` together with any error raised
before the solver is invoked.  The script performs no check between
constructing `df_analysis` and calling the solver — the `try` block wraps
only the solver call itself and its `except` merely prints — so the
pre-solver error component is always `none`. -/
def countModelStep (panel : List PanelRow) (start : Int) (window_length : Int) :
    Option String × List ARow :=
  (none, df_analysis panel start window_length)

/-- Whether a (is_treatment, post_policy) cell of the analysis frame is
occupied. -/
def cellOccupied (rows : List ARow) (t p : Int) : Bool :=
  rows.any fun r => r.is_treatment == t && r.post_policy == p

/-- Modelled from the spec: the pre-solver sufficiency condition the
specification requires (`InsufficientDataError` when one of the four
treatment×period cells is empty).  No corresponding check or error type
exists anywhere in the repository's code; this definition exists only to
compare the specified behaviour with the code's. -/
def specCellCheckFails (rows : List ARow) : Bool :=
  !(cellOccupied rows 1 1 && cellOccupied rows 1 0 &&
    cellOccupied rows 0 1 && cellOccupied rows 0 0)

/-- The distinct (username, country) pairs appearing in a sequence of
events — the specification's cohort. -/
def cohortOf (events : List RawEvent) : List (String × String) :=
  dropDup (events.filterMap fun e =>
    match e.username with
    | some u => some (u, e.country)
    | none => none)

/-- The distinct dates appearing in a sequence of events — the
specification's calendar. -/
def calendarOf (events : List RawEvent) : List Int :=
  dropDup (events.filterMap fun e => e.event_timestamp)

/-!
## Pipeline B: `src/scripts/simple_did_analysis.py`
-/

/-- A cell of an `api_*` column before `pd.to_numeric(errors='coerce')`:
either an (integral) number, a non-numeric string, or a missing value.  The
GitHub API metrics are integers and the per-day sums stay far below 2^53, so
`Int` models the float column exactly. -/
inductive NumCell where
  | num (n : Int)
  | nonNumeric
  | null
deriving DecidableEq, Repr

/-- `pd.to_numeric(col, errors='coerce')`: numbers pass through, anything
unparseable (and anything already missing) becomes missing. -/
def toNumericCoerce : NumCell → NumCell
  | NumCell.num n => NumCell.num n
  | NumCell.nonNumeric => NumCell.null
  | NumCell.null => NumCell.null

/-- A cell of the `event_timestamp` column: either still the raw CSV text
or already parsed (`pd.to_datetime`).  Both carry the day number of the
instant, the only part the pipeline uses. -/
inductive TsCell where
  | raw (d : Int)
  | parsed (d : Int)
deriving DecidableEq, Repr

/-- `pd.to_datetime` on a timestamp cell. -/
def toDatetime : TsCell → TsCell
  | TsCell.raw d => TsCell.parsed d
  | TsCell.parsed d => TsCell.parsed d

/-- The day number carried by a timestamp cell (`.dt.date`). -/
def tsDay : TsCell → Int
  | TsCell.raw d => d
  | TsCell.parsed d => d

/-- A row of the combined enriched-commit frame handed to
`prepare_did_variables` (`username`, `country`, `event_timestamp`,
`api_additions`, `api_deletions`, `api_changes`, plus a `commit_sha` used
only for counting and carried implicitly). -/
structure CommitB where
  username : String
  country : String
  event_timestamp : TsCell
  api_additions : NumCell
  api_deletions : NumCell
  api_changes : NumCell
deriving DecidableEq, Repr

/-- The in-place column assignments at the top of `prepare_did_variables`
(lines 41–47): `df['event_timestamp'] = pd.to_datetime(...)` and
`df['api_*'] = pd.to_numeric(df['api_*'], errors='coerce')`.  These
assignments are applied to the frame object the caller passed in, so this
function is both the first pipeline step and the net in-place effect of
`prepare_did_variables` on its argument (every later statement rebinds the
local `df` to a fresh frame and leaves the caller's object alone). -/
def prepareMutation (df : List CommitB) : List CommitB :=
  df.map fun c =>
    { c with
      event_timestamp := toDatetime c.event_timestamp,
      api_additions := toNumericCoerce c.api_additions,
      api_deletions := toNumericCoerce c.api_deletions,
      api_changes := toNumericCoerce c.api_changes }

/-- Whether a coerced cell is missing. -/
def isNullCell : NumCell → Bool
  | NumCell.null => true
  | _ => false

/-- `df = df.dropna(subset=['api_additions','api_deletions','api_changes'])`. -/
def dropnaApi (df : List CommitB) : List CommitB :=
  df.filter fun c =>
    !isNullCell c.api_additions && !isNullCell c.api_deletions &&
      !isNullCell c.api_changes

/-- `if seven_days_only: df = df[df['date'] < april_8th]` — the only date
restriction in the pipeline, applied just when the flag is set. -/
def dateFilter (df : List CommitB) (seven_days_only : Bool) : List CommitB :=
  if seven_days_only then
    df.filter fun c => decide (tsDay c.event_timestamp < civilToDay 2023 4 8)
  else df

/-- The numeric value of a cell that survived `dropna` (coerced cells are
numbers or missing, and `dropna` removed the missing ones). -/
def cellVal : NumCell → Int
  | NumCell.num n => n
  | _ => 0

/-- A row of `daily_user_stats` right after the groupby/rename: summed line
metrics and the commit count per (username, country, date). -/
structure AggRow where
  username : String
  country : String
  date : Int
  api_additions : Int
  api_deletions : Int
  api_changes : Int
  commits_count : Nat
deriving DecidableEq, Repr

/-- `daily_user_stats = df.groupby(['username','country','date']).agg(
additions: sum, deletions: sum, changes: sum, commit_sha: count)`, with the
count renamed to `commits_count`: one row per distinct key, summing each
metric over the group and counting the group's rows. -/
def daily_user_stats_agg (df : List CommitB) : List AggRow :=
  (dropDup (df.map fun c =>
    (c.username, c.country, tsDay c.event_timestamp))).map fun k =>
    let grp := df.filter fun c =>
      decide ((c.username, c.country, tsDay c.event_timestamp) = k)
    { username := k.1, country := k.2.1, date := k.2.2,
      api_additions := (grp.map fun c => cellVal c.api_additions).sum,
      api_deletions := (grp.map fun c => cellVal c.api_deletions).sum,
      api_changes := (grp.map fun c => cellVal c.api_changes).sum,
      commits_count := grp.length }

/-- A `daily_user_stats` row after the treatment/post/interaction and
day-of-week columns are assigned. -/
structure DailyRow where
  username : String
  country : String
  date : Int
  api_additions : Int
  api_deletions : Int
  api_changes : Int
  commits_count : Nat
  treatment : Int
  post_treatment : Int
  treatment_post : Int
  day_of_week : Int
deriving DecidableEq, Repr

/-- The column assignments of lines 80–92:
`treatment = (country == 'italy').astype(int)`,
`post_treatment = (date >= april_1st).astype(int)`,
`treatment_post = treatment * post_treatment`, and the day-of-week column
derived from the date. -/
def addDidVars (r : AggRow) : DailyRow :=
  let treatment : Int := if r.country = "italy" then 1 else 0
  let post_treatment : Int := if civilToDay 2023 4 1 ≤ r.date then 1 else 0
  { username := r.username, country := r.country, date := r.date,
    api_additions := r.api_additions, api_deletions := r.api_deletions,
    api_changes := r.api_changes, commits_count := r.commits_count,
    treatment := treatment, post_treatment := post_treatment,
    treatment_post := treatment * post_treatment,
    day_of_week := dayOfWeek r.date }

/-- The frame `daily_user_stats` as of line 92, i.e. the value the local
`df` has inside `prepare_did_variables` just before the log columns are
added: mutate/coerce, drop missing metrics, optionally truncate dates,
aggregate, and add the DiD indicator columns. -/
def daily_user_stats (df : List CommitB) (seven_days_only : Bool) : List DailyRow :=
  (daily_user_stats_agg (dateFilter (dropnaApi (prepareMutation df)) seven_days_only)).map
    addDidVars

/-- `np.log1p` on an (exact integer) metric value, over the reals. -/
noncomputable def log1p (n : Int) : ℝ :=
  Real.log (1 + (n : ℝ))

/-- A `daily_user_stats` row after the `log_additions`, `log_deletions`,
`log_changes` columns are assigned (lines 94–96). -/
structure LoggedRow where
  username : String
  country : String
  date : Int
  api_additions : Int
  api_deletions : Int
  api_changes : Int
  commits_count : Nat
  treatment : Int
  post_treatment : Int
  treatment_post : Int
  day_of_week : Int
  log_additions : ℝ
  log_deletions : ℝ
  log_changes : ℝ

/-- The log-column assignments `log_* = np.log1p(api_*)`. -/
noncomputable def addLogs (r : DailyRow) : LoggedRow :=
  { username := r.username, country := r.country, date := r.date,
    api_additions := r.api_additions, api_deletions := r.api_deletions,
    api_changes := r.api_changes, commits_count := r.commits_count,
    treatment := r.treatment, post_treatment := r.post_treatment,
    treatment_post := r.treatment_post, day_of_week := r.day_of_week,
    log_additions := log1p r.api_additions,
    log_deletions := log1p r.api_deletions,
    log_changes := log1p r.api_changes }

/-- The full return value of `prepare_did_variables(df, seven_days_only)`. -/
noncomputable def prepare_did_variables (df : List CommitB) (seven_days_only : Bool) :
    List LoggedRow :=
  (daily_user_stats df seven_days_only).map addLogs

/-- The three outcome columns fitted by
`difference_in_differences_analysis`. -/
def outcomeVars : List String :=
  ["log_additions", "log_deletions", "log_changes"]

/-- `difference_in_differences_analysis(df)`: for each outcome the function
builds the formula string and calls `ols(formula, data=df).fit()`; the first
component is the list of (outcome, frame) pairs handed to the solver, and
the second component is the state of `df` when the function returns.  The
loop body only reads `df` (no column assignment targets it), so the frame
comes back exactly as it went in. -/
def difference_in_differences_analysis (df : List LoggedRow) :
    List (String × List LoggedRow) × List LoggedRow :=
  (outcomeVars.map fun o => (o, df), df)

/-!
## Lemmas about the pipeline-A panel construction
-/

/-- The single merged row a grid key produces when the matching `df_counts`
rows are unique (which `groupby` guarantees). -/
def mergeOne (counts : List CountRow) (g : GridKey) : MergedRow :=
  match counts.filter (matchKey g) with
  | [] => { username := g.1.1, country := g.1.2, date := g.2.1,
            day_of_week := g.2.2, commit_count := none }
  | m :: _ => { username := g.1.1, country := g.1.2, date := g.2.1,
                day_of_week := g.2.2, commit_count := some m.commit_count }

theorem filter_length_le_one {α κ : Type} [DecidableEq κ] (key : α → κ)
    (p : α → Bool) (l : List α) (hnd : (l.map key).Nodup)
    (hp : ∀ x y, p x = true → p y = true → key x = key y) :
    (l.filter p).length ≤ 1 := by
  induction l with
  | nil => simp
  | cons a l ih =>
    rw [List.map_cons] at hnd
    have hnd' := List.nodup_cons.mp hnd
    by_cases hpa : p a = true
    · rw [List.filter_cons_of_pos hpa]
      have hnil : l.filter p = [] := by
        refine List.filter_eq_nil_iff.mpr ?_
        intro b hb hpb
        exact hnd'.1 (List.mem_map.mpr ⟨b, hb, (hp b a hpb hpa)⟩)
      simp [hnil]
    · rw [List.filter_cons_of_neg hpa]
      exact ih hnd'.2

theorem matchKey_eq_key (g : GridKey) (r : CountRow) (h : matchKey g r = true) :
    r.username = g.1.1 ∧ r.country = g.1.2 ∧ r.date = g.2.1 ∧
      r.day_of_week = g.2.2 := by
  simp only [matchKey, Bool.and_eq_true, beq_iff_eq] at h
  exact ⟨h.1.1.1, h.1.1.2, h.1.2, h.2⟩

theorem leftMerge_eq_map (grid : List GridKey) (counts : List CountRow)
    (h : ∀ g ∈ grid, (counts.filter (matchKey g)).length ≤ 1) :
    leftMerge grid counts = grid.map (mergeOne counts) := by
  induction grid with
  | nil => rfl
  | cons g gs ih =>
    have hg := h g (List.mem_cons_self g gs)
    have ihs := ih fun g' hg' => h g' (List.mem_cons_of_mem _ hg')
    rcases hfil : counts.filter (matchKey g) with _ | ⟨m, ms⟩
    · rw [leftMerge, hfil, List.map_cons, ihs, mergeOne, hfil]
      rfl
    · have hms : ms = [] := by
        rw [hfil] at hg
        simp only [List.length_cons] at hg
        exact List.length_eq_zero.mp (by omega)
      subst hms
      rw [leftMerge, hfil, List.map_cons, ihs, mergeOne, hfil]
      rfl

theorem mem_validTriples (E : List RawEvent) (t : Int) (c u : String) :
    (t, c, u) ∈ validTriples E ↔
      ∃ e ∈ E, e.username = some u ∧ e.country = c ∧
        e.event_timestamp = some t := by
  constructor
  · intro h
    rcases List.mem_filterMap.mp h with ⟨e, he, heq⟩
    rcases hu : e.username with _ | u' <;> rcases ht : e.event_timestamp with _ | t' <;>
      rw [hu, ht] at heq <;> simp at heq
    rcases heq with ⟨h1, h2, h3⟩
    exact ⟨e, he, by rw [hu, h3], by rw [h2], by rw [ht, h1]⟩
  · rintro ⟨e, he, h1, h2, h3⟩
    refine List.mem_filterMap.mpr ⟨e, he, ?_⟩
    rw [h1, h3, h2]

theorem mem_df_counts (E : List RawEvent) (r : CountRow) :
    r ∈ df_counts E ↔
      (r.date, r.country, r.username) ∈ validTriples E ∧
        r.day_of_week = dayOfWeek r.date ∧
        r.commit_count = (validTriples E).count (r.date, r.country, r.username) := by
  simp only [df_counts, List.mem_map, mem_dropDup]
  constructor
  · rintro ⟨k, hk, rfl⟩
    exact ⟨hk, rfl, rfl⟩
  · rintro ⟨hk, hdow, hcc⟩
    refine ⟨(r.date, r.country, r.username), hk, ?_⟩
    cases r
    simp_all

theorem df_counts_key_nodup (E : List RawEvent) :
    ((df_counts E).map fun r => (r.date, r.country, r.username)).Nodup := by
  have : ((df_counts E).map fun r => (r.date, r.country, r.username)) =
      dropDup (validTriples E) := by
    simp only [df_counts, List.map_map]
    exact List.map_id _
  rw [this]
  exact nodup_dropDup _

theorem df_counts_matches_le_one (E : List RawEvent) (g : GridKey) :
    ((df_counts E).filter (matchKey g)).length ≤ 1 := by
  refine filter_length_le_one (fun r => (r.date, r.country, r.username))
    (matchKey g) (df_counts E) (df_counts_key_nodup E) ?_
  intro x y hx hy
  have hx' := matchKey_eq_key g x hx
  have hy' := matchKey_eq_key g y hy
  show (x.date, x.country, x.username) = (y.date, y.country, y.username)
  rw [hx'.1, hx'.2.1, hx'.2.2.1, hy'.1, hy'.2.1, hy'.2.2.1]

theorem df_user_day_eq_map (E : List RawEvent) :
    df_user_day E =
      (crossJoin (unique_users (df_counts E)) (unique_dates (df_counts E))).map
        (fun g => finalizeRow (mergeOne (df_counts E) g)) := by
  rw [df_user_day, leftMerge_eq_map _ _ (fun g _ => df_counts_matches_le_one E g),
    List.map_map]
  rfl

theorem df_user_day_length (E : List RawEvent) :
    (df_user_day E).length =
      (unique_users (df_counts E)).length * (unique_dates (df_counts E)).length := by
  rw [df_user_day_eq_map, List.length_map, crossJoin_length]

theorem mem_unique_users (E : List RawEvent) (u c : String) :
    (u, c) ∈ unique_users (df_counts E) ↔ ∃ t, (t, c, u) ∈ validTriples E := by
  simp only [unique_users, mem_dropDup, List.mem_map]
  constructor
  · rintro ⟨r, hr, heq⟩
    have h := (mem_df_counts E r).mp hr
    have hu : r.username = u := congrArg Prod.fst heq
    have hc : r.country = c := congrArg Prod.snd heq
    exact ⟨r.date, by rw [← hu, ← hc]; exact h.1⟩
  · rintro ⟨t, ht⟩
    refine ⟨CountRow.mk u c t (dayOfWeek t) ((validTriples E).count (t, c, u)),
      ?_, rfl⟩
    exact (mem_df_counts E _).mpr ⟨ht, rfl, rfl⟩

theorem mem_unique_dates (E : List RawEvent) (d w : Int) :
    (d, w) ∈ unique_dates (df_counts E) ↔
      w = dayOfWeek d ∧ ∃ c u, (d, c, u) ∈ validTriples E := by
  simp only [unique_dates, mem_dropDup, List.mem_map]
  constructor
  · rintro ⟨r, hr, heq⟩
    have h := (mem_df_counts E r).mp hr
    have hd : r.date = d := congrArg Prod.fst heq
    have hw : r.day_of_week = w := congrArg Prod.snd heq
    exact ⟨by rw [← hw, ← hd]; exact h.2.1,
      r.country, r.username, by rw [← hd]; exact h.1⟩
  · rintro ⟨hw, c, u, ht⟩
    refine ⟨CountRow.mk u c d (dayOfWeek d) ((validTriples E).count (d, c, u)),
      ?_, by rw [hw]⟩
    exact (mem_df_counts E _).mpr ⟨ht, rfl, rfl⟩

theorem unique_dates_dow (E : List RawEvent) (p : Int × Int)
    (hp : p ∈ unique_dates (df_counts E)) : p.2 = dayOfWeek p.1 := by
  cases p with
  | mk d w => exact ((mem_unique_dates E d w).mp hp).1

theorem mem_cohortOf (E : List RawEvent) (u c : String) :
    (u, c) ∈ cohortOf E ↔ ∃ e ∈ E, e.username = some u ∧ e.country = c := by
  simp only [cohortOf, mem_dropDup, List.mem_filterMap]
  constructor
  · rintro ⟨e, he, heq⟩
    rcases hu : e.username with _ | u' <;> rw [hu] at heq
    · exact absurd heq (by simp)
    · simp only [Option.some.injEq] at heq
      have h1 : u' = u := congrArg Prod.fst heq
      have h2 : e.country = c := congrArg Prod.snd heq
      exact ⟨e, he, by rw [hu, h1], h2⟩
  · rintro ⟨e, he, h1, h2⟩
    exact ⟨e, he, by rw [h1, h2]⟩

theorem mem_calendarOf (E : List RawEvent) (d : Int) :
    d ∈ calendarOf E ↔ ∃ e ∈ E, e.event_timestamp = some d := by
  simp only [calendarOf, mem_dropDup, List.mem_filterMap]

theorem count_validTriples (E : List RawEvent) (d : Int) (c u : String) :
    (validTriples E).count (d, c, u) =
      (E.filter fun e => decide (e.username = some u ∧ e.country = c ∧
        e.event_timestamp = some d)).length := by
  induction E with
  | nil => simp [validTriples]
  | cons e E ih =>
    rcases hu : e.username with _ | u' <;> rcases ht : e.event_timestamp with _ | t'
    · have h1 : validTriples (e :: E) = validTriples E := by
        simp [validTriples, List.filterMap_cons, hu]
      have h2 : (decide (e.username = some u ∧ e.country = c ∧
          e.event_timestamp = some d)) = false := by simp [hu]
      rw [h1, List.filter_cons_of_neg (by rw [h2]; simp), ih]
    · have h1 : validTriples (e :: E) = validTriples E := by
        simp [validTriples, List.filterMap_cons, hu]
      have h2 : (decide (e.username = some u ∧ e.country = c ∧
          e.event_timestamp = some d)) = false := by simp [hu]
      rw [h1, List.filter_cons_of_neg (by rw [h2]; simp), ih]
    · have h1 : validTriples (e :: E) = validTriples E := by
        simp [validTriples, List.filterMap_cons, hu, ht]
      have h2 : (decide (e.username = some u ∧ e.country = c ∧
          e.event_timestamp = some d)) = false := by simp [ht]
      rw [h1, List.filter_cons_of_neg (by rw [h2]; simp), ih]
    · have h1 : validTriples (e :: E) = (t', e.country, u') :: validTriples E := by
        simp [validTriples, List.filterMap_cons, hu, ht]
      rw [h1, List.count_cons, ih, List.filter_cons]
      by_cases hA : u' = u ∧ e.country = c ∧ t' = d
      · have hb1 : ((t', e.country, u') == (d, c, u)) = true := by
          simp [hA.1, hA.2.1, hA.2.2]
        have hb2 : (decide (e.username = some u ∧ e.country = c ∧
            e.event_timestamp = some d)) = true := by
          simp [hu, ht, hA.1, hA.2.1, hA.2.2]
        rw [hb1, hb2]
        simp
      · have hb1 : ((t', e.country, u') == (d, c, u)) = false := by
          simp only [beq_eq_false_iff_ne, ne_eq, Prod.mk.injEq, not_and]
          intro hdt hcc huu
          exact hA ⟨huu, hcc, hdt⟩
        have hb2 : (decide (e.username = some u ∧ e.country = c ∧
            e.event_timestamp = some d)) = false := by
          simp only [hu, ht, Option.some.injEq, decide_eq_false_iff_not, not_and]
          intro huu hcc htd
          exact absurd ⟨huu, hcc, htd⟩ hA
        rw [hb1, hb2]
        simp

theorem finalizeRow_mergeOne_key (counts : List CountRow) (g : GridKey) :
    (finalizeRow (mergeOne counts g)).username = g.1.1 ∧
      (finalizeRow (mergeOne counts g)).country = g.1.2 ∧
      (finalizeRow (mergeOne counts g)).date = g.2.1 ∧
      (finalizeRow (mergeOne counts g)).day_of_week = g.2.2 := by
  rcases hfil : counts.filter (matchKey g) with _ | ⟨m, ms⟩ <;>
    simp [mergeOne, hfil, finalizeRow]

theorem mergeOne_commit_count (E : List RawEvent) (g : GridKey)
    (hdow : g.2.2 = dayOfWeek g.2.1) :
    (finalizeRow (mergeOne (df_counts E) g)).commit_count =
      (validTriples E).count (g.2.1, g.1.2, g.1.1) := by
  rcases hfil : (df_counts E).filter (matchKey g) with _ | ⟨m, ms⟩
  · simp only [mergeOne, hfil, finalizeRow, Option.getD_none]
    symm
    refine List.count_eq_zero.mpr ?_
    intro hk
    have hr : CountRow.mk g.1.1 g.1.2 g.2.1 (dayOfWeek g.2.1)
        ((validTriples E).count (g.2.1, g.1.2, g.1.1)) ∈ df_counts E :=
      (mem_df_counts E _).mpr ⟨hk, rfl, rfl⟩
    have hmatch : matchKey g (CountRow.mk g.1.1 g.1.2 g.2.1 (dayOfWeek g.2.1)
        ((validTriples E).count (g.2.1, g.1.2, g.1.1))) = true := by
      simp [matchKey, hdow]
    have hmem := List.mem_filter.mpr ⟨hr, hmatch⟩
    rw [hfil] at hmem
    exact absurd hmem (List.not_mem_nil _)
  · have hm : m ∈ (df_counts E).filter (matchKey g) := by
      rw [hfil]; exact List.mem_cons_self m ms
    have hmc := (List.mem_filter.mp hm).1
    have hmk := matchKey_eq_key g m (List.mem_filter.mp hm).2
    have hcc := ((mem_df_counts E m).mp hmc).2.2
    simp only [mergeOne, hfil, finalizeRow, Option.getD_some]
    rw [hcc, hmk.1, hmk.2.1, hmk.2.2.1]

theorem mem_df_user_day_key (E : List RawEvent) (u c : String) (d : Int) :
    (∃ r ∈ df_user_day E, r.username = u ∧ r.country = c ∧ r.date = d) ↔
      ((u, c) ∈ unique_users (df_counts E) ∧
        (d, dayOfWeek d) ∈ unique_dates (df_counts E)) := by
  rw [df_user_day_eq_map]
  constructor
  · rintro ⟨r, hr, hu, hc, hd⟩
    rcases List.mem_map.mp hr with ⟨g, hg, heq⟩
    have hkey := finalizeRow_mergeOne_key (df_counts E) g
    have hmem := (mem_crossJoin _ _ g).mp hg
    have hg1 : g.1 = (u, c) := by
      have e1 : g.1.1 = u := by rw [← hkey.1, heq, hu]
      have e2 : g.1.2 = c := by rw [← hkey.2.1, heq, hc]
      exact Prod.ext e1 e2
    have hg2 : g.2 = (d, dayOfWeek d) := by
      have e1 : g.2.1 = d := by rw [← hkey.2.2.1, heq, hd]
      have e2 : g.2.2 = dayOfWeek d := by
        rw [unique_dates_dow E g.2 hmem.2, e1]
      exact Prod.ext e1 e2
    exact ⟨hg1 ▸ hmem.1, hg2 ▸ hmem.2⟩
  · rintro ⟨hu, hd⟩
    refine ⟨finalizeRow (mergeOne (df_counts E) ((u, c), (d, dayOfWeek d))),
      List.mem_map.mpr ⟨((u, c), (d, dayOfWeek d)),
        (mem_crossJoin _ _ _).mpr ⟨hu, hd⟩, rfl⟩, ?_⟩
    exact ⟨(finalizeRow_mergeOne_key _ _).1, (finalizeRow_mergeOne_key _ _).2.1,
      (finalizeRow_mergeOne_key _ _).2.2.1⟩

theorem df_user_day_key_nodup (E : List RawEvent) :
    ((df_user_day E).map fun r => (r.username, r.country, r.date)).Nodup := by
  rw [df_user_day_eq_map, List.map_map]
  refine List.Nodup.map_on ?_
    (nodup_crossJoin _ _ (nodup_dropDup _) (nodup_dropDup _))
  intro x hx y hy hxy
  have hxd := unique_dates_dow E x.2 ((mem_crossJoin _ _ x).mp hx).2
  have hyd := unique_dates_dow E y.2 ((mem_crossJoin _ _ y).mp hy).2
  have hkx := finalizeRow_mergeOne_key (df_counts E) x
  have hky := finalizeRow_mergeOne_key (df_counts E) y
  have e1 : x.1.1 = y.1.1 := by
    rw [← hkx.1, ← hky.1]
    exact congrArg (fun p => p.1) hxy
  have e2 : x.1.2 = y.1.2 := by
    rw [← hkx.2.1, ← hky.2.1]
    exact congrArg (fun p => p.2.1) hxy
  have e3 : x.2.1 = y.2.1 := by
    rw [← hkx.2.2.1, ← hky.2.2.1]
    exact congrArg (fun p => p.2.2) hxy
  have e4 : x.2.2 = y.2.2 := by rw [hxd, hyd, e3]
  have hfst : x.1 = y.1 := Prod.ext e1 e2
  have hsnd : x.2 = y.2 := Prod.ext e3 e4
  exact Prod.ext hfst hsnd

theorem finalizeRow_did_commit (r : MergedRow) :
    (finalizeRow r).did_commit =
      if 0 < (finalizeRow r).commit_count then 1 else 0 := rfl

theorem cohort_users_iff (E : List RawEvent)
    (hE : ∀ e ∈ E, e.username ≠ none ∧ e.event_timestamp ≠ none)
    (p : String × String) :
    p ∈ cohortOf E ↔ p ∈ unique_users (df_counts E) := by
  cases p with
  | mk u c =>
    rw [mem_cohortOf, mem_unique_users]
    constructor
    · rintro ⟨e, he, h1, h2⟩
      rcases ht : e.event_timestamp with _ | t
      · exact absurd ht (hE e he).2
      · exact ⟨t, (mem_validTriples E t c u).mpr ⟨e, he, h1, h2, ht⟩⟩
    · rintro ⟨t, ht⟩
      rcases (mem_validTriples E t c u).mp ht with ⟨e, he, h1, h2, _⟩
      exact ⟨e, he, h1, h2⟩

theorem calendar_dates_iff (E : List RawEvent)
    (hE : ∀ e ∈ E, e.username ≠ none ∧ e.event_timestamp ≠ none) (d : Int) :
    d ∈ calendarOf E ↔ (d, dayOfWeek d) ∈ unique_dates (df_counts E) := by
  rw [mem_calendarOf, mem_unique_dates]
  constructor
  · rintro ⟨e, he, ht⟩
    rcases hu : e.username with _ | u
    · exact absurd hu (hE e he).1
    · exact ⟨rfl, e.country, u, (mem_validTriples E d e.country u).mpr
        ⟨e, he, hu, rfl, ht⟩⟩
  · rintro ⟨-, c, u, ht⟩
    rcases (mem_validTriples E d c u).mp ht with ⟨e, he, _, _, h3⟩
    exact ⟨e, he, h3⟩

theorem cohort_length_eq (E : List RawEvent)
    (hE : ∀ e ∈ E, e.username ≠ none ∧ e.event_timestamp ≠ none) :
    (unique_users (df_counts E)).length = (cohortOf E).length :=
  length_eq_of_nodup_of_mem_iff _ _ (nodup_dropDup _) (nodup_dropDup _)
    (fun p => (cohort_users_iff E hE p).symm)

theorem calendar_length_eq (E : List RawEvent)
    (hE : ∀ e ∈ E, e.username ≠ none ∧ e.event_timestamp ≠ none) :
    (unique_dates (df_counts E)).length = (calendarOf E).length := by
  rw [← List.length_map (unique_dates (df_counts E)) Prod.fst]
  refine length_eq_of_nodup_of_mem_iff _ _ ?_ (nodup_dropDup _) ?_
  · refine List.Nodup.map_on ?_ (nodup_dropDup _)
    intro x hx y hy hxy
    have hxd := unique_dates_dow E x hx
    have hyd := unique_dates_dow E y hy
    exact Prod.ext hxy (by rw [hxd, hyd, hxy])
  · intro d
    rw [calendar_dates_iff E hE d, List.mem_map]
    constructor
    · rintro ⟨p, hp, heq⟩
      have hpd := unique_dates_dow E p hp
      have : p = (d, dayOfWeek d) := Prod.ext heq (by rw [hpd, heq])
      exact this ▸ hp
    · intro h
      exact ⟨(d, dayOfWeek d), h, rfl⟩

/-- C1: `build_panel` (the `df_user_day` construction) returns exactly
`|cohort| × |calendar|` rows, one per (username, country, date) key with no
duplicates; every key of cohort × calendar appears, even for user-days with
no events (whose `commit_count` is the filled 0); each row's `commit_count`
is exactly the number of that user's events on that date (hence ≥ 0), and
`did_commit` is 1 exactly when `commit_count > 0`. -/
theorem c1_grid_completeness (E : List RawEvent)
    (hE : ∀ e ∈ E, e.username ≠ none ∧ e.event_timestamp ≠ none) :
    (df_user_day E).length = (cohortOf E).length * (calendarOf E).length ∧
    ((df_user_day E).map fun r => (r.username, r.country, r.date)).Nodup ∧
    (∀ u c d, ((u, c) ∈ cohortOf E ∧ d ∈ calendarOf E) ↔
      ∃ r ∈ df_user_day E, r.username = u ∧ r.country = c ∧ r.date = d) ∧
    (∀ r ∈ df_user_day E,
      r.commit_count = (E.filter fun e => decide (e.username = some r.username ∧
        e.country = r.country ∧ e.event_timestamp = some r.date)).length ∧
      r.did_commit = if 0 < r.commit_count then 1 else 0) := by
  refine ⟨?_, df_user_day_key_nodup E, ?_, ?_⟩
  · rw [df_user_day_length, cohort_length_eq E hE, calendar_length_eq E hE]
  · intro u c d
    rw [mem_df_user_day_key, cohort_users_iff E hE, calendar_dates_iff E hE]
  · intro r hr
    rw [df_user_day_eq_map] at hr
    rcases List.mem_map.mp hr with ⟨g, hg, heq⟩
    have hmem := (mem_crossJoin _ _ g).mp hg
    have hdow := unique_dates_dow E g.2 hmem.2
    have hkey := finalizeRow_mergeOne_key (df_counts E) g
    have hcc := mergeOne_commit_count E g hdow
    constructor
    · rw [← heq, hcc, count_validTriples, hkey.1, hkey.2.1, hkey.2.2.1]
    · rw [← heq]
      exact finalizeRow_did_commit _

/-- Witness for C1 at a concrete two-user, two-day event list. -/
theorem c1_grid_completeness_witness :
    (∀ e ∈ [RawEvent.mk (some "a") "Italy" (some 0),
        RawEvent.mk (some "a") "Italy" (some 0),
        RawEvent.mk (some "b") "Austria" (some 1)],
      e.username ≠ none ∧ e.event_timestamp ≠ none) ∧
    ((df_user_day [RawEvent.mk (some "a") "Italy" (some 0),
        RawEvent.mk (some "a") "Italy" (some 0),
        RawEvent.mk (some "b") "Austria" (some 1)]).length =
      (cohortOf [RawEvent.mk (some "a") "Italy" (some 0),
        RawEvent.mk (some "a") "Italy" (some 0),
        RawEvent.mk (some "b") "Austria" (some 1)]).length *
      (calendarOf [RawEvent.mk (some "a") "Italy" (some 0),
        RawEvent.mk (some "a") "Italy" (some 0),
        RawEvent.mk (some "b") "Austria" (some 1)]).length ∧
    ((df_user_day [RawEvent.mk (some "a") "Italy" (some 0),
        RawEvent.mk (some "a") "Italy" (some 0),
        RawEvent.mk (some "b") "Austria" (some 1)]).map
          fun r => (r.username, r.country, r.date)).Nodup ∧
    (∀ u c d, ((u, c) ∈ cohortOf [RawEvent.mk (some "a") "Italy" (some 0),
        RawEvent.mk (some "a") "Italy" (some 0),
        RawEvent.mk (some "b") "Austria" (some 1)] ∧
        d ∈ calendarOf [RawEvent.mk (some "a") "Italy" (some 0),
          RawEvent.mk (some "a") "Italy" (some 0),
          RawEvent.mk (some "b") "Austria" (some 1)]) ↔
      ∃ r ∈ df_user_day [RawEvent.mk (some "a") "Italy" (some 0),
          RawEvent.mk (some "a") "Italy" (some 0),
          RawEvent.mk (some "b") "Austria" (some 1)],
        r.username = u ∧ r.country = c ∧ r.date = d) ∧
    (∀ r ∈ df_user_day [RawEvent.mk (some "a") "Italy" (some 0),
        RawEvent.mk (some "a") "Italy" (some 0),
        RawEvent.mk (some "b") "Austria" (some 1)],
      r.commit_count = ([RawEvent.mk (some "a") "Italy" (some 0),
        RawEvent.mk (some "a") "Italy" (some 0),
        RawEvent.mk (some "b") "Austria" (some 1)].filter fun e =>
          decide (e.username = some r.username ∧ e.country = r.country ∧
            e.event_timestamp = some r.date)).length ∧
      r.did_commit = if 0 < r.commit_count then 1 else 0)) :=
  ⟨by decide, c1_grid_completeness _ (by decide)⟩

theorem validTriples_filter_some (E : List RawEvent) :
    validTriples (E.filter fun e =>
      e.username.isSome && e.event_timestamp.isSome) = validTriples E := by
  induction E with
  | nil => rfl
  | cons e E ih =>
    rcases hu : e.username with _ | u <;> rcases ht : e.event_timestamp with _ | t
    · rw [List.filter_cons_of_neg (by simp [hu]), ih]
      simp [validTriples, List.filterMap_cons, hu]
    · rw [List.filter_cons_of_neg (by simp [hu]), ih]
      simp [validTriples, List.filterMap_cons, hu]
    · rw [List.filter_cons_of_neg (by simp [ht]), ih]
      simp [validTriples, List.filterMap_cons, hu, ht]
    · rw [List.filter_cons_of_pos (by simp [hu, ht])]
      simp only [validTriples, List.filterMap_cons, hu, ht]
      rw [← validTriples, ← validTriples, ih]

/-- C6 amended: records with a missing username or timestamp have no effect
whatsoever on the panel — they are silently excluded by the `groupby`
(pandas drops rows whose group key contains a missing value); no
`MalformedEventError` (or any error) is raised and no rejection count is
reported. -/
theorem c6_nulls_silently_dropped (E : List RawEvent) :
    df_user_day E = df_user_day (E.filter fun e =>
      e.username.isSome && e.event_timestamp.isSome) := by
  unfold df_user_day df_counts
  rw [validTriples_filter_some]

/-- C6 counterexample: a record with a null username is processed without
any error — `df_user_day` returns normally — and the record is silently
dropped, leaving no trace in the panel, instead of being rejected with a
`MalformedEventError` and counted. -/
theorem c6_counterexample :
    df_user_day [RawEvent.mk none "Italy" (some 0)] = [] ∧
    df_user_day [RawEvent.mk none "Italy" (some 0),
        RawEvent.mk (some "a") "Italy" (some 0)] =
      df_user_day [RawEvent.mk (some "a") "Italy" (some 0)] := by
  decide

/-- C7 amended: the grid is materialized unconditionally — for every input,
`df_user_day` produces the full cohort × calendar cross product; no safety
threshold is consulted and no `GridTooLargeError` (or any other size guard)
exists anywhere in the pipeline. -/
theorem c7_grid_always_materialized (E : List RawEvent) :
    (df_user_day E).length =
      (unique_users (df_counts E)).length *
        (unique_dates (df_counts E)).length :=
  df_user_day_length E

/-- A family of event lists: one user `a` in Italy active on `n` distinct
days, plus a user `b` in Austria active on one further day. -/
def bigEventsN (n : ℕ) : List RawEvent :=
  ((List.range n).map fun i =>
    RawEvent.mk (some "a") "Italy" (some (Int.ofNat i))) ++
    [RawEvent.mk (some "b") "Austria" (some (-1))]

/-- An event list whose cohort × calendar product is 2 × 25000002 cells,
exceeding the 50M safety bound the specification demands. -/
def bigEvents : List RawEvent :=
  bigEventsN 25000001

theorem validTriples_cons_some (u c : String) (t : Int) (E : List RawEvent) :
    validTriples (RawEvent.mk (some u) c (some t) :: E) =
      (t, c, u) :: validTriples E := rfl

theorem validTriples_append (E₁ E₂ : List RawEvent) :
    validTriples (E₁ ++ E₂) = validTriples E₁ ++ validTriples E₂ :=
  List.filterMap_append E₁ E₂ _

theorem validTriples_mapA (l : List ℕ) :
    validTriples (l.map fun i =>
      RawEvent.mk (some "a") "Italy" (some (Int.ofNat i))) =
      l.map fun i => (Int.ofNat i, "Italy", "a") := by
  induction l with
  | nil => rfl
  | cons i l ih =>
    rw [List.map_cons, validTriples_cons_some, ih, List.map_cons]

theorem validTriples_bigEventsN (n : ℕ) :
    validTriples (bigEventsN n) =
      ((List.range n).map fun i => (Int.ofNat i, "Italy", "a")) ++
        [((-1 : Int), "Austria", "b")] := by
  rw [bigEventsN, validTriples_append, validTriples_mapA]
  rfl

theorem nodup_valid_bigEventsN (n : ℕ) :
    (((List.range n).map fun i => (Int.ofNat i, "Italy", "a")) ++
      [((-1 : Int), "Austria", "b")]).Nodup := by
  rw [List.nodup_append]
  refine ⟨?_, List.nodup_singleton _, ?_⟩
  · refine List.Nodup.map ?_ (List.nodup_range n)
    intro i j hij
    have h : Int.ofNat i = Int.ofNat j := congrArg Prod.fst hij
    exact Int.ofNat_inj.mp h
  · intro p hp hq
    rcases List.mem_map.mp hp with ⟨i, _, heq⟩
    rw [List.mem_singleton] at hq
    rw [hq] at heq
    have h := congrArg (fun t => t.2.1) heq
    simp only at h
    exact absurd h (by decide)

theorem dropDupAux_replicate_mem {α : Type} [DecidableEq α] (p : α)
    (seen rest : List α) (hp : p ∈ seen) :
    ∀ n : ℕ, dropDupAux seen (List.replicate n p ++ rest) =
      dropDupAux seen rest := by
  intro n
  induction n with
  | zero => rfl
  | succ m ih =>
    rw [List.replicate_succ, List.cons_append, dropDupAux, if_pos hp]
    exact ih

theorem dropDup_replicate_append_singleton {α : Type} [DecidableEq α]
    (n : ℕ) (p q : α) (hqp : q ≠ p) :
    dropDup (List.replicate (n + 1) p ++ [q]) = [p, q] := by
  rw [List.replicate_succ, List.cons_append, dropDup, dropDupAux,
    if_neg (List.not_mem_nil p),
    dropDupAux_replicate_mem p [p] [q] (List.mem_singleton_self p) n,
    dropDupAux, if_neg (by simp [hqp])]
  rfl

theorem users_key_bigEventsN (n : ℕ) :
    ((df_counts (bigEventsN n)).map fun r => (r.username, r.country)) =
      List.replicate n ("a", "Italy") ++ [("b", "Austria")] := by
  rw [df_counts, validTriples_bigEventsN,
    dropDup_eq_self _ (nodup_valid_bigEventsN n), List.map_map,
    List.map_append, List.map_map]
  congr 1
  refine List.eq_replicate_iff.mpr ⟨by simp, ?_⟩
  intro b hb
  rcases List.mem_map.mp hb with ⟨i, _, heq⟩
  exact heq.symm

theorem unique_users_bigEventsN (n : ℕ) :
    unique_users (df_counts (bigEventsN (n + 1))) =
      [("a", "Italy"), ("b", "Austria")] := by
  rw [unique_users, users_key_bigEventsN,
    dropDup_replicate_append_singleton n ("a", "Italy") ("b", "Austria")
      (by simp)]

theorem dates_key_bigEventsN (n : ℕ) :
    ((df_counts (bigEventsN n)).map fun r => (r.date, r.day_of_week)) =
      ((List.range n).map fun i =>
        (Int.ofNat i, dayOfWeek (Int.ofNat i))) ++
        [((-1 : Int), dayOfWeek (-1))] := by
  rw [df_counts, validTriples_bigEventsN,
    dropDup_eq_self _ (nodup_valid_bigEventsN n), List.map_map,
    List.map_append, List.map_map]
  congr 1

theorem nodup_dates_key_bigEventsN (n : ℕ) :
    (((List.range n).map fun i =>
      (Int.ofNat i, dayOfWeek (Int.ofNat i))) ++
      [((-1 : Int), dayOfWeek (-1))]).Nodup := by
  rw [List.nodup_append]
  refine ⟨?_, List.nodup_singleton _, ?_⟩
  · refine List.Nodup.map ?_ (List.nodup_range n)
    intro i j hij
    have h : Int.ofNat i = Int.ofNat j := congrArg Prod.fst hij
    exact Int.ofNat_inj.mp h
  · intro p hp hq
    rcases List.mem_map.mp hp with ⟨i, _, heq⟩
    rw [List.mem_singleton] at hq
    rw [hq] at heq
    have h : Int.ofNat i = -1 := congrArg Prod.fst heq
    have h2 : (0 : Int) ≤ Int.ofNat i := Int.ofNat_nonneg i
    omega

theorem unique_dates_bigEventsN_length (n : ℕ) :
    (unique_dates (df_counts (bigEventsN n))).length = n + 1 := by
  rw [unique_dates, dates_key_bigEventsN,
    dropDup_eq_self _ (nodup_dates_key_bigEventsN n), List.length_append,
    List.length_map, List.length_range]
  rfl

/-- C7 counterexample: a concrete event list whose cohort × calendar product
is 2 × 25000002 = 50000004 cells, exceeding the specification's 50M safety
bound, for which the pipeline nevertheless materializes the full grid (the
panel really has that many rows) — no `GridTooLargeError` is raised before
allocation because no such check exists. -/
theorem c7_counterexample :
    50000000 < (unique_users (df_counts bigEvents)).length *
        (unique_dates (df_counts bigEvents)).length ∧
      (df_user_day bigEvents).length =
        (unique_users (df_counts bigEvents)).length *
          (unique_dates (df_counts bigEvents)).length := by
  constructor
  · have hu : (unique_users (df_counts bigEvents)).length = 2 := by
      rw [bigEvents, show (25000001 : ℕ) = 25000000 + 1 by norm_num,
        unique_users_bigEventsN 25000000]
      rfl
    have hd : (unique_dates (df_counts bigEvents)).length = 25000002 := by
      rw [bigEvents, unique_dates_bigEventsN_length 25000001]
    rw [hu, hd]
    norm_num
  · exact df_user_day_length bigEvents

/-- C3: the window filter retains exactly the rows with `date < policy_start`
(the entire unbounded pre-period) plus the rows with
`policy_start ≤ date ≤ policy_start + (window_length − 1)`, inclusive on both
ends, and excludes every row strictly after that window; with
policy_start = 2023-04-01 and window_length = 7 a row dated 2023-04-07 is
retained, a row dated 2023-04-08 is excluded, and a row dated 2023-03-31 is
retained.  The `seven_days_only` filter of the line-level pipeline
(`date < 2023-04-08`) keeps exactly the same set of dates. -/
theorem c3_filter_window :
    (∀ (panel : List PanelRow) (start window_length : Int) (r : PanelRow),
      r ∈ filterWindow panel start window_length ↔
        r ∈ panel ∧ (r.date < start ∨
          (start ≤ r.date ∧ r.date ≤ start + (window_length - 1)))) ∧
    (∀ (df : List CommitB) (c : CommitB),
      c ∈ dateFilter df true ↔
        c ∈ df ∧ tsDay c.event_timestamp < civilToDay 2023 4 8) ∧
    (∀ d : Int, d < civilToDay 2023 4 8 ↔
      (d < civilToDay 2023 4 1 ∨ (civilToDay 2023 4 1 ≤ d ∧
        d ≤ civilToDay 2023 4 1 + (7 - 1)))) ∧
    (PanelRow.mk "u" "X" (civilToDay 2023 4 7) 0 0 0 ∈
      filterWindow [PanelRow.mk "u" "X" (civilToDay 2023 4 7) 0 0 0]
        (civilToDay 2023 4 1) 7) ∧
    (PanelRow.mk "u" "X" (civilToDay 2023 4 8) 0 0 0 ∉
      filterWindow [PanelRow.mk "u" "X" (civilToDay 2023 4 8) 0 0 0]
        (civilToDay 2023 4 1) 7) ∧
    (PanelRow.mk "u" "X" (civilToDay 2023 3 31) 0 0 0 ∈
      filterWindow [PanelRow.mk "u" "X" (civilToDay 2023 3 31) 0 0 0]
        (civilToDay 2023 4 1) 7) := by
  refine ⟨?_, ?_, ?_, by decide, by decide, by decide⟩
  · intro panel start window_length r
    rw [filterWindow, List.mem_filter]
    simp
  · intro df c
    rw [dateFilter]
    simp [List.mem_filter]
  · intro d
    have h1 : civilToDay 2023 4 1 = 19448 := by decide
    have h8 : civilToDay 2023 4 8 = 19455 := by decide
    rw [h1, h8]
    omega

/-- C5 amended: no `InsufficientDataError` exists and no pre-solver
sufficiency check is performed.  In the count pipeline the frame is handed to
`smf.ols` unconditionally — the component recording an error raised between
frame construction and the solver call is always `none` (the `try` wraps only
the solver call and its `except` merely prints) — and in the line-level
pipeline `difference_in_differences_analysis` likewise passes the frame to
`ols` for every outcome with no check of the treatment×period cells. -/
theorem c5_no_presolver_check (panel : List PanelRow)
    (start window_length : Int) :
    (countModelStep panel start window_length).1 = none ∧
    (countModelStep panel start window_length).2 =
      df_analysis panel start window_length ∧
    (∀ df : List LoggedRow,
      (difference_in_differences_analysis df).1 =
        outcomeVars.map fun o => (o, df)) :=
  ⟨rfl, rfl, fun _ => rfl⟩

/-- C5 counterexample: a concrete analysis panel whose treatment×post cell
(and two further cells) is empty — the condition under which the
specification requires an `InsufficientDataError` before the solver runs —
for which the count-model step raises nothing before invoking the solver. -/
theorem c5_counterexample :
    specCellCheckFails
      (countModelStep [PanelRow.mk "u" "France" 0 4 1 1]
        (civilToDay 2023 4 1) 7).2 = true ∧
    (countModelStep [PanelRow.mk "u" "France" 0 4 1 1]
      (civilToDay 2023 4 1) 7).1 = none := by
  decide

/-!
## Lemmas about the pipeline-B aggregation
-/

theorem mem_agg_key (l : List CommitB) (u c : String) (d : Int) :
    (∃ r ∈ daily_user_stats_agg l,
      r.username = u ∧ r.country = c ∧ r.date = d) ↔
      ∃ e ∈ l, e.username = u ∧ e.country = c ∧
        tsDay e.event_timestamp = d := by
  constructor
  · rintro ⟨r, hr, h1, h2, h3⟩
    rcases List.mem_map.mp hr with ⟨k, hk, heq⟩
    subst heq
    rcases List.mem_map.mp ((mem_dropDup _ _).mp hk) with ⟨e, he, hke⟩
    have he1 : e.username = k.1 := congrArg (fun p => p.1) hke
    have he2 : e.country = k.2.1 := congrArg (fun p => p.2.1) hke
    have he3 : tsDay e.event_timestamp = k.2.2 := congrArg (fun p => p.2.2) hke
    exact ⟨e, he, he1.trans h1, he2.trans h2, he3.trans h3⟩
  · rintro ⟨e, he, h1, h2, h3⟩
    refine ⟨_, List.mem_map.mpr ⟨(u, c, d),
      (mem_dropDup _ _).mpr (List.mem_map.mpr ⟨e, he, by rw [h1, h2, h3]⟩),
      rfl⟩, rfl, rfl, rfl⟩

theorem agg_commits_pos (l : List CommitB) (r : AggRow)
    (hr : r ∈ daily_user_stats_agg l) : 1 ≤ r.commits_count := by
  rcases List.mem_map.mp hr with ⟨k, hk, heq⟩
  subst heq
  rcases List.mem_map.mp ((mem_dropDup _ _).mp hk) with ⟨e, he, hke⟩
  have hmem : e ∈ l.filter fun c =>
      decide ((c.username, c.country, tsDay c.event_timestamp) = k) :=
    List.mem_filter.mpr ⟨he, by simp [hke]⟩
  exact List.length_pos_of_mem hmem

theorem mem_daily_key (df : List CommitB) (s : Bool) (u c : String) (d : Int) :
    (∃ r ∈ daily_user_stats df s,
      r.username = u ∧ r.country = c ∧ r.date = d) ↔
      ∃ e ∈ dateFilter (dropnaApi (prepareMutation df)) s,
        e.username = u ∧ e.country = c ∧ tsDay e.event_timestamp = d := by
  rw [daily_user_stats]
  constructor
  · rintro ⟨r, hr, h⟩
    rcases List.mem_map.mp hr with ⟨a, ha, heq⟩
    subst heq
    exact (mem_agg_key _ u c d).mp ⟨a, ha, h⟩
  · intro h
    rcases (mem_agg_key (dateFilter (dropnaApi (prepareMutation df)) s)
      u c d).mpr h with ⟨a, ha, h1, h2, h3⟩
    exact ⟨addDidVars a, List.mem_map.mpr ⟨a, ha, rfl⟩, h1, h2, h3⟩

theorem daily_user_stats_key_nodup (df : List CommitB) (s : Bool) :
    ((daily_user_stats df s).map fun r =>
      (r.username, r.country, r.date)).Nodup := by
  have h : ((daily_user_stats df s).map fun r =>
      (r.username, r.country, r.date)) =
      dropDup ((dateFilter (dropnaApi (prepareMutation df)) s).map fun c =>
        (c.username, c.country, tsDay c.event_timestamp)) := by
    rw [daily_user_stats, daily_user_stats_agg, List.map_map, List.map_map]
    exact List.map_id _
  rw [h]
  exact nodup_dropDup _

/-- C2 amended: the line-level aggregation does NOT zero-fill a complete
grid — `daily_user_stats` has exactly one row per (username, country, date)
key with at least one retained commit (`commits_count ≥ 1` on every row), and
a user-day with no commits is absent from the regression frame rather than
present with value 0. -/
theorem c2_active_user_days_only (df : List CommitB) (seven_days_only : Bool) :
    (((daily_user_stats df seven_days_only).map fun r =>
      (r.username, r.country, r.date)).Nodup) ∧
    (∀ (u c : String) (d : Int),
      (∃ r ∈ daily_user_stats df seven_days_only,
        r.username = u ∧ r.country = c ∧ r.date = d) ↔
        ∃ e ∈ dateFilter (dropnaApi (prepareMutation df)) seven_days_only,
          e.username = u ∧ e.country = c ∧ tsDay e.event_timestamp = d) ∧
    (∀ r ∈ daily_user_stats df seven_days_only, 1 ≤ r.commits_count) := by
  refine ⟨daily_user_stats_key_nodup df seven_days_only,
    fun u c d => mem_daily_key df seven_days_only u c d, ?_⟩
  intro r hr
  rw [daily_user_stats] at hr
  rcases List.mem_map.mp hr with ⟨a, ha, heq⟩
  subst heq
  exact agg_commits_pos _ a ha

/-- C2 counterexample: user `a` commits only on day 10 and user `b` only on
day 11, both with valid metrics; day 11 is in the calendar and `a` is in the
cohort, yet the aggregated frame used for the regression has no
(`a`, day 11) row at all — the grid-completeness invariant fails for the
line-level pipeline. -/
theorem c2_counterexample :
    ((daily_user_stats [CommitB.mk "a" "italy" (TsCell.raw 10)
        (NumCell.num 1) (NumCell.num 2) (NumCell.num 3),
      CommitB.mk "b" "france" (TsCell.raw 11)
        (NumCell.num 1) (NumCell.num 0) (NumCell.num 1)] false).length = 2) ∧
    (¬ ∃ r ∈ daily_user_stats [CommitB.mk "a" "italy" (TsCell.raw 10)
        (NumCell.num 1) (NumCell.num 2) (NumCell.num 3),
      CommitB.mk "b" "france" (TsCell.raw 11)
        (NumCell.num 1) (NumCell.num 0) (NumCell.num 1)] false,
      r.username = "a" ∧ r.date = 11) ∧
    (∃ r ∈ daily_user_stats [CommitB.mk "a" "italy" (TsCell.raw 10)
        (NumCell.num 1) (NumCell.num 2) (NumCell.num 3),
      CommitB.mk "b" "france" (TsCell.raw 11)
        (NumCell.num 1) (NumCell.num 0) (NumCell.num 1)] false,
      r.date = 11) ∧
    (∃ r ∈ daily_user_stats [CommitB.mk "a" "italy" (TsCell.raw 10)
        (NumCell.num 1) (NumCell.num 2) (NumCell.num 3),
      CommitB.mk "b" "france" (TsCell.raw 11)
        (NumCell.num 1) (NumCell.num 0) (NumCell.num 1)] false,
      r.username = "a") := by
  decide

/-- C4: for every row entering a regression, the interaction column
`treatment_post` is computed as the product of the two 0/1 indicator columns
(`treatment_post = treatment * post_treatment`, assigned from that product,
never independently), which for 0/1 indicators coincides with the boolean
AND: `treatment_post = 1` exactly when `treatment = 1` and
`post_treatment = 1`. -/
theorem c4_interaction (df : List CommitB) (seven_days_only : Bool)
    (r : DailyRow) (hr : r ∈ daily_user_stats df seven_days_only) :
    r.treatment_post = r.treatment * r.post_treatment ∧
    (r.treatment_post = 1 ↔ (r.treatment = 1 ∧ r.post_treatment = 1)) ∧
    (r.treatment = 0 ∨ r.treatment = 1) ∧
    (r.post_treatment = 0 ∨ r.post_treatment = 1) ∧
    r.treatment = (if r.country = "italy" then 1 else 0) ∧
    r.post_treatment = (if civilToDay 2023 4 1 ≤ r.date then 1 else 0) := by
  rw [daily_user_stats] at hr
  rcases List.mem_map.mp hr with ⟨a, ha, heq⟩
  subst heq
  by_cases hc : a.country = "italy" <;>
    by_cases hd : civilToDay 2023 4 1 ≤ a.date <;>
    simp [addDidVars, hc, hd]

/-- Witness for C4: a single Italian commit on 2023-04-13 (day 19460)
yields the row with treatment = post_treatment = treatment_post = 1. -/
theorem c4_interaction_witness :
    (DailyRow.mk "a" "italy" 19460 3 1 4 1 1 1 1 4 ∈
      daily_user_stats [CommitB.mk "a" "italy" (TsCell.raw 19460)
        (NumCell.num 3) (NumCell.num 1) (NumCell.num 4)] false) ∧
    ((DailyRow.mk "a" "italy" 19460 3 1 4 1 1 1 1 4).treatment_post =
      (DailyRow.mk "a" "italy" 19460 3 1 4 1 1 1 1 4).treatment *
        (DailyRow.mk "a" "italy" 19460 3 1 4 1 1 1 1 4).post_treatment ∧
    ((DailyRow.mk "a" "italy" 19460 3 1 4 1 1 1 1 4).treatment_post = 1 ↔
      ((DailyRow.mk "a" "italy" 19460 3 1 4 1 1 1 1 4).treatment = 1 ∧
        (DailyRow.mk "a" "italy" 19460 3 1 4 1 1 1 1 4).post_treatment = 1)) ∧
    ((DailyRow.mk "a" "italy" 19460 3 1 4 1 1 1 1 4).treatment = 0 ∨
      (DailyRow.mk "a" "italy" 19460 3 1 4 1 1 1 1 4).treatment = 1) ∧
    ((DailyRow.mk "a" "italy" 19460 3 1 4 1 1 1 1 4).post_treatment = 0 ∨
      (DailyRow.mk "a" "italy" 19460 3 1 4 1 1 1 1 4).post_treatment = 1) ∧
    (DailyRow.mk "a" "italy" 19460 3 1 4 1 1 1 1 4).treatment =
      (if (DailyRow.mk "a" "italy" 19460 3 1 4 1 1 1 1 4).country = "italy"
        then 1 else 0) ∧
    (DailyRow.mk "a" "italy" 19460 3 1 4 1 1 1 1 4).post_treatment =
      (if civilToDay 2023 4 1 ≤
          (DailyRow.mk "a" "italy" 19460 3 1 4 1 1 1 1 4).date
        then 1 else 0)) :=
  ⟨by decide, c4_interaction
    [CommitB.mk "a" "italy" (TsCell.raw 19460)
      (NumCell.num 3) (NumCell.num 1) (NumCell.num 4)] false
    (DailyRow.mk "a" "italy" 19460 3 1 4 1 1 1 1 4) (by decide)⟩

/-- C10: when `seven_days_only` is false the pipeline applies no upper date
bound at all — the date-filter step is the identity and every commit with
valid numeric api metrics contributes its (username, country, date) key to
the aggregated regression frame, no matter how far after 2023-04-01 its date
falls.  (By `c3_filter_window`'s second conjunct, the bound `date <
2023-04-08` exists exactly when the flag is true.) -/
theorem c10_no_upper_date_bound (df : List CommitB) :
    dateFilter (dropnaApi (prepareMutation df)) false =
      dropnaApi (prepareMutation df) ∧
    (∀ e ∈ dropnaApi (prepareMutation df),
      ∃ r ∈ daily_user_stats df false,
        r.username = e.username ∧ r.country = e.country ∧
          r.date = tsDay e.event_timestamp) := by
  refine ⟨rfl, ?_⟩
  intro e he
  exact (mem_daily_key df false e.username e.country
    (tsDay e.event_timestamp)).mpr ⟨e, he, rfl, rfl, rfl⟩

/-- C8: the count-style outcomes are transformed with `log1p`, for which
`log1p 0 = 0`; for every nonnegative metric value the transformed outcome is
a well-defined finite real (bounded between 0 and the raw value), and the
log-column step is a plain column map — it preserves the number of rows, so
no row is discarded on account of a zero outcome. -/
theorem c8_log1p_zeros :
    log1p 0 = 0 ∧
    (∀ n : Int, 0 ≤ n → 0 ≤ log1p n ∧ log1p n ≤ (n : ℝ)) ∧
    (∀ (df : List CommitB) (s : Bool),
      (prepare_did_variables df s).length = (daily_user_stats df s).length) ∧
    (∀ (df : List CommitB) (s : Bool) (r : LoggedRow),
      r ∈ prepare_did_variables df s →
        r.log_additions = log1p r.api_additions ∧
        r.log_deletions = log1p r.api_deletions ∧
        r.log_changes = log1p r.api_changes ∧
        (r.api_additions = 0 → r.log_additions = 0) ∧
        (r.api_deletions = 0 → r.log_deletions = 0) ∧
        (r.api_changes = 0 → r.log_changes = 0)) := by
  have hz : log1p 0 = 0 := by
    rw [log1p]
    norm_num
  refine ⟨hz, ?_, ?_, ?_⟩
  · intro n hn
    constructor
    · refine Real.log_nonneg ?_
      have : (0 : ℝ) ≤ (n : ℝ) := by exact_mod_cast hn
      linarith
    · have hpos : (0 : ℝ) < 1 + (n : ℝ) := by
        have : (0 : ℝ) ≤ (n : ℝ) := by exact_mod_cast hn
        linarith
      have := Real.log_le_sub_one_of_pos hpos
      rw [log1p]
      linarith
  · intro df s
    rw [prepare_did_variables, List.length_map]
  · intro df s r hr
    rw [prepare_did_variables] at hr
    rcases List.mem_map.mp hr with ⟨a, _, heq⟩
    subst heq
    refine ⟨rfl, rfl, rfl, ?_, ?_, ?_⟩ <;> intro h <;>
      simp only [addLogs] at h ⊢ <;> rw [h, hz]

/-- C9 amended: `difference_in_differences_analysis` (the fit stage) has no
side effect on its input frame — the frame is identical after the call — but
the pipeline stages are not all mutation-free: `prepare_did_variables`
mutates the frame object its caller passed in (its timestamp-parsing and
`to_numeric` coercion assignments are applied in place before the local
rebinding), as the concrete frame in the second conjunct shows. -/
theorem c9_fit_pure_prepare_mutates :
    (∀ df : List LoggedRow, (difference_in_differences_analysis df).2 = df) ∧
    prepareMutation [CommitB.mk "a" "italy" (TsCell.raw 0)
        NumCell.nonNumeric (NumCell.num 0) (NumCell.num 0)] ≠
      [CommitB.mk "a" "italy" (TsCell.raw 0)
        NumCell.nonNumeric (NumCell.num 0) (NumCell.num 0)] :=
  ⟨fun _ => rfl, by decide⟩

/-- C9 counterexample: a one-row frame whose timestamp is still raw text and
whose `api_additions` holds a non-numeric string comes back from
`prepare_did_variables`'s in-place column assignments with both cells
changed (timestamp parsed, non-numeric value coerced to missing): the
analysis frame passed into the stage is mutated in place, contradicting the
claim that no stage mutates the frames. -/
theorem c9_counterexample :
    prepareMutation [CommitB.mk "a" "italy" (TsCell.raw 0)
        NumCell.nonNumeric (NumCell.num 0) (NumCell.num 0)] =
      [CommitB.mk "a" "italy" (TsCell.parsed 0)
        NumCell.null (NumCell.num 0) (NumCell.num 0)] ∧
    CommitB.mk "a" "italy" (TsCell.parsed 0)
        NumCell.null (NumCell.num 0) (NumCell.num 0) ≠
      CommitB.mk "a" "italy" (TsCell.raw 0)
        NumCell.nonNumeric (NumCell.num 0) (NumCell.num 0) := by
  decide
